import Mathlib

/-!
Verification of the Polymarket front-running signal pipeline
(`polymarket.py`): domain classification, resolution-source extraction,
source relevance scoring, opportunity detection, signal generation
(action decision and the two ROI formulas) and backtest aggregation.

Strings are modelled as Lean `String`s; the character-level operations of
the Python code (`str.lower`, `in`, `str.find`, `str.strip`, `str.split`,
the two regular expressions) are implemented on `List Char`.  Python
floats are modelled as exact rationals `ℚ`.  Wall-clock time stamps are
passed in as parameters; the latency measurements of the source
(`time.time()` deltas) are outside the model.
-/

namespace Polymarket

/-- Python `str.lower` on a character list (ASCII-faithful). -/
def lowerL (s : List Char) : List Char := s.map Char.toLower

/-- `isPrefixL pat l` : does `l` start with `pat`? -/
def isPrefixL : List Char → List Char → Bool
  | [], _ => true
  | _ :: _, [] => false
  | a :: as, b :: bs => a == b && isPrefixL as bs

/-- Python `needle in hay` on character lists (substring containment). -/
def containsSubL (needle : List Char) : List Char → Bool
  | [] => isPrefixL needle []
  | h :: t => isPrefixL needle (h :: t) || containsSubL needle t

/-- Python `needle in hay` on strings. -/
def strIn (needle hay : String) : Bool := containsSubL needle.toList hay.toList

/-- Python `hay.find(needle)`: index of the first occurrence, `none` if absent. -/
def findSubL (needle : List Char) : List Char → Option Nat
  | [] => if isPrefixL needle [] then some 0 else none
  | h :: t =>
    if isPrefixL needle (h :: t) then some 0
    else (findSubL needle t).map (· + 1)

/-- The whitespace class of Python `str.strip` / regex `\s` (ASCII part). -/
def isSpaceChar (c : Char) : Bool :=
  c == ' ' || c == '\t' || c == '\n' || c == '\r' || c == '\x0b' || c == '\x0c'

/-- Python `str.strip()`: drop leading and trailing whitespace. -/
def stripL (s : List Char) : List Char :=
  ((s.dropWhile isSpaceChar).reverse.dropWhile isSpaceChar).reverse

/-- Lowercase a whole string, as Python `str.lower`. -/
def lowerStr (s : String) : String := String.mk (lowerL s.toList)

/-- The anchored regular expression `^(.*?\.)` of `extract_resolution_source`:
non-greedy, `.` does not match a newline, so the match (when it exists) is the
prefix up to and including the first `'.'`, and it exists only when that first
period is not preceded by a newline. -/
def matchDotRun : List Char → Option (List Char)
  | [] => none
  | c :: t =>
    if c == '.' then some ['.']
    else if c == '\n' then none
    else (matchDotRun t).map (c :: ·)

/-- `extract_resolution_source` (polymarket.py:89-117): case-insensitive search
for "resolution source"; `None` when absent; otherwise the remaining suffix,
cut at the first period by `re.match(r'^(.*?\.)')` when that matches, and
stripped of surrounding whitespace. -/
def extract_resolution_source (description : String) : Option String :=
  match findSubL "resolution source".toList (lowerL description.toList) with
  | none => none
  | some idx =>
    let snippet := description.toList.drop idx
    match matchDotRun snippet with
    | some m => some (String.mk (stripL m))
    | none => some (String.mk (stripL snippet))

def politicsKw : List String := ["trump", "election", "president", "biden", "white house", "congress"]
def cryptoKw : List String := ["etf", "crypto", "bitcoin", "ethereum", "sec", "coinbase"]
def economyKw : List String := ["fed", "rate", "inflation", "recession", "gdp", "federal reserve"]
def healthKw : List String := ["pandemic", "covid", "who", "health", "vaccine"]
def sportsKw : List String := ["match", "game", "championship", "league", "team"]

/-- All domain keywords in priority order (politics first, sports last). -/
def allDomainKeywords : List String :=
  politicsKw ++ cryptoKw ++ economyKw ++ healthKw ++ sportsKw

/-- `categorize_market_domain` (polymarket.py:119-144): first-match-wins keyword
classification over the lowercased concatenation of question and description. -/
def categorize_market_domain (question description : String) : String :=
  let text := lowerStr (question ++ " " ++ description)
  if politicsKw.any (fun k => strIn k text) then "politics"
  else if cryptoKw.any (fun k => strIn k text) then "crypto"
  else if economyKw.any (fun k => strIn k text) then "economy"
  else if healthKw.any (fun k => strIn k text) then "health"
  else if sportsKw.any (fun k => strIn k text) then "sports"
  else "other"

/-- Character class `[^\s,)]` of the URL regex. -/
def urlChar (c : Char) : Bool := !(isSpaceChar c || c == ',' || c == ')')

/-- The scheme prefix "https://" as an explicit character list. -/
def httpsL : List Char := ['h', 't', 't', 'p', 's', ':', '/', '/']

/-- The scheme prefix "http://" as an explicit character list. -/
def httpL : List Char := ['h', 't', 't', 'p', ':', '/', '/']

/-- `re.findall(r'https?://[^\s,)]+', text)`: leftmost non-overlapping matches,
each greedy.  Scanning advances by one character until a scheme matches and is
followed by at least one class character; the match then extends maximally.
The fuel argument only ensures structural recursion; `fuel = l.length`
(as passed by `findall_urls`) is always sufficient because every recursive
call strictly shortens the list. -/
def findall_urlsAux : Nat → List Char → List (List Char)
  | 0, _ => []
  | _ + 1, [] => []
  | fuel + 1, c :: t =>
    if isPrefixL httpsL (c :: t) then
      let run := (t.drop 7).takeWhile urlChar
      if run.isEmpty then findall_urlsAux fuel t
      else (httpsL ++ run) :: findall_urlsAux fuel ((t.drop 7).dropWhile urlChar)
    else if isPrefixL httpL (c :: t) then
      let run := (t.drop 6).takeWhile urlChar
      if run.isEmpty then findall_urlsAux fuel t
      else (httpL ++ run) :: findall_urlsAux fuel ((t.drop 6).dropWhile urlChar)
    else findall_urlsAux fuel t

def findall_urls (l : List Char) : List (List Char) :=
  findall_urlsAux l.length l

/-- `extract_urls` (polymarket.py:214-216). -/
def extract_urls (text : String) : List String :=
  (findall_urls text.toList).map String.mk

/-- The greedy regex match at the head of `s`, if any: a scheme followed by
the maximal non-empty run of class characters.  This is what `re.findall`
emits when its scan reaches a given position. -/
def greedyAt0 (s : List Char) : Option (List Char) :=
  if isPrefixL httpsL s then
    let run := (s.drop 8).takeWhile urlChar
    if run.isEmpty then none else some (httpsL ++ run)
  else if isPrefixL httpL s then
    let run := (s.drop 7).takeWhile urlChar
    if run.isEmpty then none else some (httpL ++ run)
  else none

/-- Position `i` of `t` lies strictly inside the span of a greedy match
starting at an earlier position. -/
def coveredAt (t : List Char) (i : Nat) : Bool :=
  (List.range i).any fun j =>
    match greedyAt0 (t.drop j) with
    | none => false
    | some v => decide (i < j + v.length)

/-- Spec-side restatement of `re.findall(r'https?://[^\s,)]+', ...)`: walk the
positions of the input in increasing order and emit the greedy match starting
at each position that is not inside an earlier match's span.  The claim
theorem's characterisation shows the emitted matches are exactly the
occurrences that are maximal in the sense of `isMaximalUrlAt`, so this list
is every maximal match, in order of appearance, duplicates preserved. -/
def specUrls (t : List Char) : List (List Char) :=
  (List.range t.length).filterMap fun i =>
    match greedyAt0 (t.drop i) with
    | none => none
    | some u => if coveredAt t i then none else some u

/-- `u` occurs in `t` at position `i`. -/
def occursAt (t : List Char) (i : Nat) (u : List Char) : Prop :=
  ∃ s2, t.drop i = u ++ s2

/-- `u` is a complete match of the URL pattern: "http://" or "https://"
followed by a non-empty run of characters outside the class
{whitespace, comma, close paren}. -/
def isUrlMatch (u : List Char) : Prop :=
  ∃ rest, (u = httpsL ++ rest ∨ u = httpL ++ rest) ∧ rest ≠ [] ∧
    ∀ c ∈ rest, urlChar c = true

/-- The occurrence of `u` at position `i` of `t` is a maximal match of the
URL pattern: it is an occurrence of the pattern, and the only occurrence of
the pattern whose span contains its span is itself. -/
def isMaximalUrlAt (t : List Char) (i : Nat) (u : List Char) : Prop :=
  occursAt t i u ∧ isUrlMatch u ∧
  ∀ j v, occursAt t j v → isUrlMatch v → j ≤ i → i + u.length ≤ j + v.length →
    j = i ∧ v = u

/-- Python `s.split(sep)` for a non-empty separator, via the usual fuel
argument (`fuel = s.length` always suffices: each step consumes at least
`sep.length ≥ 1` characters). -/
def splitOnAux (sep : List Char) : Nat → List Char → List (List Char)
  | 0, s => [s]
  | fuel + 1, s =>
    match findSubL sep s with
    | none => [s]
    | some i => s.take i :: splitOnAux sep fuel (s.drop (i + sep.length))

/-- Python `s.split(sep)` on strings (non-empty separator). -/
def pySplit (sep s : String) : List String :=
  (splitOnAux sep.toList s.toList.length s.toList).map String.mk

/-- `source_url.split("//")[-1].split("/")[0]` (polymarket.py:404). -/
def hostOf (source_url : String) : String :=
  ((pySplit "/" ((pySplit "//" source_url).getLastD "")).headD "")

/-- `get_economy_resolution_sources` (polymarket.py:311-318). -/
def get_economy_resolution_sources : List String :=
  [ "https://fred.stlouisfed.org/series/FGEXPND",
    "https://www.federalreserve.gov/monetarypolicy/openmarket.htm",
    "https://www.bea.gov/data/gdp/gross-domestic-product",
    "https://www.nber.org/" ]

/-- The hard-coded `source_keywords` table of `calculate_relevance`
(polymarket.py:396-401), keyed by host without a `www.` prefix. -/
def relevance_source_keywords : List (String × List String) :=
  [ ("fred.stlouisfed.org", ["federal spending", "government spending", "expenditure"]),
    ("federalreserve.gov", ["federal reserve", "interest rate", "monetary policy"]),
    ("bea.gov", ["gdp", "gross domestic product", "economic growth"]),
    ("nber.org", ["recession", "economic downturn", "business cycle"]) ]

/-- The keyword profile `calculate_relevance` looks up for a URL:
`source_keywords.get(source_domain, [])`. -/
def relevanceProfile (source_url : String) : List String :=
  (relevance_source_keywords.lookup (hostOf source_url)).getD []

/-- Result of probing one monitored source (the fields of the probe dict that
`calculate_relevance` and `detect_arbitrage_opportunities` read). -/
structure SourceInfo where
  status : String
  content_length : Nat
deriving DecidableEq, Repr

/-- Jaccard similarity of two keyword lists viewed as sets (the
`set(...)`-based intersection/union cardinalities of the source). -/
def jaccardQ (a b : List String) : ℚ :=
  let A := a.dedup
  let B := b.dedup
  let inter := (A.filter (fun k => k ∈ B)).length
  let union := A.length + (B.filter (fun k => k ∉ A)).length
  (inter : ℚ) / (union : ℚ)

/-- `calculate_relevance` (polymarket.py:390-425): Jaccard similarity between
the market keywords and the per-host profile, boosted by 1.2 on a successful
probe with more than 1000 characters of content, capped at 1. -/
def calculate_relevance (source_url : String) (market_keywords : List String)
    (source_info : SourceInfo) : ℚ :=
  if market_keywords.isEmpty then 0
  else
    let source_specific_keywords := relevanceProfile source_url
    let M := market_keywords.dedup
    let S := source_specific_keywords.dedup
    if M.isEmpty || S.isEmpty then 0
    else
      let inter := (M.filter (fun k => k ∈ S)).length
      let union := M.length + (S.filter (fun k => k ∉ M)).length
      if union = 0 then 0
      else
        let relevance : ℚ := (inter : ℚ) / (union : ℚ)
        let relevance :=
          if source_info.status = "success" ∧ 1000 < source_info.content_length
          then relevance * (6/5) else relevance
        min relevance 1

/-- `extract_market_keywords` (polymarket.py:367-388).  The source returns
`list(set(keywords))`, whose order is unspecified; the list is normalised here
to first-occurrence order (`dedup`), which is indistinguishable downstream
because `calculate_relevance` only reads it as a set. -/
def extract_market_keywords (question description : String) : List String :=
  let text := lowerStr (question ++ " " ++ description)
  let k1 := if strIn "federal spending" text || strIn "spending" text then
    ["federal spending", "government spending", "expenditure", "budget"] else []
  let k2 := if strIn "fed rate" text || strIn "rate hike" text || strIn "rate cut" text then
    ["federal reserve", "interest rate", "monetary policy", "fed funds"] else []
  let k3 := if strIn "gdp" text || strIn "gross domestic product" text then
    ["gdp", "gross domestic product", "economic growth"] else []
  let k4 := if strIn "recession" text then
    ["recession", "economic downturn", "nber"] else []
  (k1 ++ k2 ++ k3 ++ k4).dedup

/-- A market record (the fields read by the pipeline). -/
structure Market where
  id : String
  question : String
  description : String
deriving DecidableEq, Repr

/-- An arbitrage opportunity (polymarket.py:355-363).  The numeric score
formatting inside the `reason` f-string is not modelled; `timestamp` is the
`datetime.now().isoformat()` value, passed in as the parameter `now`. -/
structure Opportunity where
  market_id : String
  question : String
  source_url : String
  confidence : String
  relevance_score : ℚ
  reason : String
  timestamp : String
deriving DecidableEq, Repr

/-- `detect_arbitrage_opportunities` (polymarket.py:333-365).  `source_data`
is the Python dict in insertion order as an association list. -/
def detect_arbitrage_opportunities (markets : List Market)
    (source_data : List (String × SourceInfo)) (now : String) : List Opportunity :=
  markets.flatMap (fun market =>
    if categorize_market_domain market.question market.description = "economy" then
      let market_keywords := extract_market_keywords market.question market.description
      source_data.flatMap (fun p =>
        if p.2.status = "success" then
          let relevance_score := calculate_relevance p.1 market_keywords p.2
          if relevance_score > 3/10 then
            [{ market_id := market.id
               question := market.question
               source_url := p.1
               confidence := if relevance_score > 7/10 then "high" else "medium"
               relevance_score := relevance_score
               reason := "Source " ++ p.1 ++ " relevant to market"
               timestamp := now }]
          else []
        else [])
    else [])

/-- `estimate_information_value` (polymarket.py:705-728). -/
def estimate_information_value (opp : Opportunity) : Bool :=
  if opp.relevance_score > 7/10 then true
  else if opp.relevance_score < 3/10 then false
  else if (["fed", "rate", "inflation"] : List String).any
      (fun k => strIn k (lowerStr opp.source_url)) then true
  else decide (opp.relevance_score > 1/2)

/-- `estimate_polymarket_probability` (polymarket.py:730-775).  The hash of
the market id is the sum of character codes, exactly as in the source. -/
def estimate_polymarket_probability (opp : Opportunity) : ℚ :=
  let base_prob : ℚ :=
    if opp.relevance_score > 4/5 then 7/10
    else if opp.relevance_score < 3/10 then 3/10
    else 1/2
  let base_prob :=
    if opp.market_id.toList.isEmpty then base_prob
    else
      let hash_val := (opp.market_id.toList.map Char.toNat).sum
      base_prob + (((hash_val % 10 : ℕ) : ℚ) - 5) * (1/100)
  let base_prob := if strIn "fred" opp.source_url then base_prob + 3/100 else base_prob
  let base_prob := if strIn "bea" opp.source_url then base_prob - 2/100 else base_prob
  let base_prob := if strIn "federalreserve" opp.source_url then base_prob + 1/100 else base_prob
  let base_prob := if strIn "nber" opp.source_url then base_prob - 1/100 else base_prob
  let confidence_multiplier : ℚ :=
    if opp.confidence = "high" then 6/5
    else if opp.confidence = "medium" then 1
    else if opp.confidence = "low" then 4/5
    else 1
  max 0 (min 1 (base_prob * confidence_multiplier))

/-- `calculate_potential_roi_v1` (polymarket.py:844-869). -/
def calculate_potential_roi_v1 (information_value : Bool)
    (polymarket_probability : ℚ) (polymarket_fee : ℚ) : ℚ :=
  let roi :=
    if information_value then 1 - polymarket_probability - polymarket_fee
    else polymarket_probability - polymarket_fee
  max roi 0

/-- `calculate_potential_roi_v2` (polymarket.py:871-907). -/
def calculate_potential_roi_v2 (information_value : Bool)
    (polymarket_probability polymarket_fee time_factor : ℚ)
    (market_status : String) : ℚ :=
  if market_status = "closed" then 0
  else
    let adjusted_probability := polymarket_probability * time_factor
    let adjusted_probability := max 0 (min 1 adjusted_probability)
    let roi :=
      if information_value then 1 - adjusted_probability - polymarket_fee
      else adjusted_probability - polymarket_fee
    max roi 0

/-- The dictionary returned by `calculate_potential_roi` (polymarket.py:909-952). -/
structure RoiData where
  roi_v1 : ℚ
  roi_v2 : ℚ
  primary_roi : ℚ
  information_value : Bool
  polymarket_probability : ℚ
  time_factor : ℚ
  market_status : String
deriving DecidableEq, Repr

/-- `calculate_potential_roi` (polymarket.py:909-952); `none` arguments model
Python's `None` defaults. -/
def calculate_potential_roi (relevance_score : ℚ) (information_value : Option Bool)
    (polymarket_probability : Option ℚ) (polymarket_fee time_factor : ℚ)
    (market_status : String) (use_v2 : Bool) : RoiData :=
  let iv := information_value.getD (decide (relevance_score > 1/2))
  let p := polymarket_probability.getD (1/2)
  let v1 := calculate_potential_roi_v1 iv p polymarket_fee
  let v2 := calculate_potential_roi_v2 iv p polymarket_fee time_factor market_status
  { roi_v1 := v1, roi_v2 := v2, primary_roi := if use_v2 then v2 else v1,
    information_value := iv, polymarket_probability := p,
    time_factor := time_factor, market_status := market_status }

/-- A trading signal (polymarket.py:668-689), restricted to its deterministic
fields.  The wall-clock timing fields (`signal_generation_time_ms`,
`reaction_time_ms`, `estimated_execution_time_ms`, `total_latency_ms`,
`timing_grade`, `signal_time`) measure real time and are outside the model. -/
structure Signal where
  market_id : String
  action : String
  confidence : String
  relevance_score : ℚ
  reason : String
  timestamp : String
  source : String
  potential_roi : ℚ
  roi_v1 : ℚ
  roi_v2 : ℚ
  information_value : Bool
  polymarket_probability : ℚ
deriving DecidableEq, Repr

/-- The absolute difference `abs(information_value - polymarket_probability)`
(polymarket.py:637) driving the action decision; Python coerces the boolean
to 0 or 1. -/
def signalDiff (information_value : Bool) (polymarket_probability : ℚ) : ℚ :=
  |(if information_value then (1 : ℚ) else 0) - polymarket_probability|

/-- `generate_trading_signals` (polymarket.py:611-703), deterministic part. -/
def generate_trading_signals (opportunities : List Opportunity) : List Signal :=
  opportunities.map (fun opp =>
    let relevance_score := opp.relevance_score
    let information_value := estimate_information_value opp
    let polymarket_probability := estimate_polymarket_probability opp
    let roi_data := calculate_potential_roi relevance_score (some information_value)
      (some polymarket_probability) (2/100) (11/10) "open" true
    let difference := signalDiff information_value polymarket_probability
    let action :=
      if difference > 1/10 then (if information_value then "buy" else "sell")
      else if difference > 1/20 then "monitor"
      else "ignore"
    { market_id := opp.market_id
      action := action
      confidence := opp.confidence
      relevance_score := relevance_score
      reason := opp.reason
      timestamp := opp.timestamp
      source := opp.source_url
      potential_roi := roi_data.primary_roi
      roi_v1 := roi_data.roi_v1
      roi_v2 := roi_data.roi_v2
      information_value := information_value
      polymarket_probability := polymarket_probability })

/-- Division that fails (like Python's `ZeroDivisionError`) on a zero
denominator. -/
def safeDiv (a b : ℚ) : Option ℚ := if b = 0 then none else some (a / b)

/-- `backtest_strategy` (polymarket.py:954-1000), as the key/value pairs of
the returned dict (counts coerced to `ℚ`).  Divisions are modelled with
`safeDiv` so that an unguarded division by zero would surface as `none`. -/
def backtest_strategy (signals : List Signal) : Option (List (String × ℚ)) :=
  if signals.isEmpty then
    some [("total_signals", 0), ("success_rate", 0), ("total_roi_v1", 0),
          ("total_roi_v2", 0), ("avg_roi_v1", 0), ("avg_roi_v2", 0)]
  else
    let total_signals := signals.length
    let high_confidence_signals := (signals.filter (fun s => s.action = "buy")).length
    let success_rate : ℚ := if high_confidence_signals > 0 then 3/4 else 1/2
    let total_roi_v1 := (signals.map (fun s => s.roi_v1)).sum
    let total_roi_v2 := (signals.map (fun s => s.roi_v2)).sum
    do
      let avg_roi_v1 ← if total_signals > 0 then safeDiv total_roi_v1 total_signals else some 0
      let avg_roi_v2 ← if total_signals > 0 then safeDiv total_roi_v2 total_signals else some 0
      let true_signals := (signals.filter (fun s => s.information_value)).length
      let false_signals := total_signals - true_signals
      let avg_probability ←
        if total_signals > 0 then
          safeDiv ((signals.map (fun s => s.polymarket_probability)).sum) total_signals
        else some (1/2)
      some [("total_signals", total_signals), ("high_confidence_signals", high_confidence_signals),
            ("success_rate", success_rate), ("total_roi_v1", total_roi_v1),
            ("total_roi_v2", total_roi_v2), ("avg_roi_v1", avg_roi_v1),
            ("avg_roi_v2", avg_roi_v2), ("true_signals", true_signals),
            ("false_signals", false_signals), ("avg_polymarket_probability", avg_probability),
            ("roi_improvement_v2", if avg_roi_v1 > 0 then avg_roi_v2 - avg_roi_v1 else 0)]

/-- Spec-side restatement of the resolution-source extractor, phrased the way
the (amended) specification describes it: the suffix starting at the
case-insensitive match of "resolution source", ending at the first period
(inclusive) when one occurs with no newline before it, otherwise the whole
remaining suffix; stripped of surrounding whitespace.  To be compared with
`extract_resolution_source`, which mirrors the code's `find`/regex phrasing. -/
def extractResolutionSourceSpec (description : String) : Option String :=
  match findSubL "resolution source".toList (lowerL description.toList) with
  | none => none
  | some idx =>
    let snippet := description.toList.drop idx
    let upto := snippet.takeWhile (fun c => c != '.')
    if '.' ∈ snippet ∧ '\n' ∉ upto then
      some (String.mk (stripL (upto ++ ['.'])))
    else some (String.mk (stripL snippet))

/-! Concrete test vectors used by the witness theorems. -/

def fredUrl : String := "https://fred.stlouisfed.org/series/FGEXPND"

/-- An economy market whose text triggers the spending keyword bundle. -/
def mEx : Market := ⟨"m1", "federal spending", ""⟩

/-- A successful probe with a content-length boost. -/
def siEx : SourceInfo := ⟨"success", 2000⟩

/-- The opportunity `detect_arbitrage_opportunities [mEx] [(fredUrl, siEx)] "t"`
produces: relevance 3/4 boosted by 6/5 to 9/10. -/
def oppEx : Opportunity :=
  ⟨"m1", "federal spending", "https://fred.stlouisfed.org/series/FGEXPND", "high", 9/10,
   "Source https://fred.stlouisfed.org/series/FGEXPND relevant to market", "t"⟩

/-- The signal `generate_trading_signals [oppEx]` produces: information value
true, probability (7/10 + 3/100 + 3/100) * 6/5 = 114/125, difference 11/125. -/
def sigEx : Signal :=
  ⟨"m1", "monitor", "high", 9/10,
   "Source https://fred.stlouisfed.org/series/FGEXPND relevant to market", "t",
   "https://fred.stlouisfed.org/series/FGEXPND", 0, 17/250, 0, true, 114/125⟩

/-! ## Helper lemmas -/

/-- Any URL whose extracted host is not a key of the profile table scores 0. -/
theorem relevance_zero_of_profile_nil (url : String) (kws : List String) (si : SourceInfo)
    (h : relevanceProfile url = []) : calculate_relevance url kws si = 0 := by
  unfold calculate_relevance
  rw [h]
  simp

/-- Decomposition of membership in the opportunity list: every emitted
opportunity comes from an economy market and a successful probe whose
relevance exceeds 3/10, and its fields are exactly the ones the source
constructs. -/
theorem mem_detect (markets : List Market) (sd : List (String × SourceInfo))
    (now : String) (opp : Opportunity)
    (h : opp ∈ detect_arbitrage_opportunities markets sd now) :
    ∃ m ∈ markets, ∃ p ∈ sd,
      categorize_market_domain m.question m.description = "economy" ∧
      p.2.status = "success" ∧
      3/10 < calculate_relevance p.1 (extract_market_keywords m.question m.description) p.2 ∧
      opp = { market_id := m.id
              question := m.question
              source_url := p.1
              confidence :=
                if calculate_relevance p.1
                    (extract_market_keywords m.question m.description) p.2 > 7/10
                then "high" else "medium"
              relevance_score :=
                calculate_relevance p.1 (extract_market_keywords m.question m.description) p.2
              reason := "Source " ++ p.1 ++ " relevant to market"
              timestamp := now } := by
  simp only [detect_arbitrage_opportunities, List.mem_flatMap] at h
  obtain ⟨m, hm, h⟩ := h
  refine ⟨m, hm, ?_⟩
  split at h
  case isFalse => simp at h
  case isTrue hdom =>
    simp only [List.mem_flatMap] at h
    obtain ⟨p, hp, h⟩ := h
    refine ⟨p, hp, hdom, ?_⟩
    split at h
    case isFalse => simp at h
    case isTrue hst =>
      split at h
      case isFalse => simp at h
      case isTrue hrel =>
        simp only [List.mem_singleton] at h
        exact ⟨hst, hrel, h⟩

/-! ## C4: ROI V1 -/

/-- **C4**: for every probability `p` and fee `f`, `calculate_potential_roi_v1`
returns `max 0 (1 - p - f)` when the information value is true and
`max 0 (p - f)` when it is false; in particular
`calculate_potential_roi_v1 true 0.7 0.02 = 0.28` and
`calculate_potential_roi_v1 false 0.7 0.02 = 0.68`, and the result is never
negative. -/
theorem roi_v1_spec :
    (∀ (iv : Bool) (p f : ℚ),
      (calculate_potential_roi_v1 iv p f
        = if iv then max 0 (1 - p - f) else max 0 (p - f)) ∧
      0 ≤ calculate_potential_roi_v1 iv p f) ∧
    calculate_potential_roi_v1 true (7/10) (2/100) = 28/100 ∧
    calculate_potential_roi_v1 false (7/10) (2/100) = 68/100 := by
  refine ⟨fun iv p f => ⟨?_, ?_⟩, ?_, ?_⟩
  · unfold calculate_potential_roi_v1
    cases iv <;> simp [max_comm]
  · unfold calculate_potential_roi_v1
    cases iv <;> simp
  · norm_num [calculate_potential_roi_v1, max_def]
  · norm_num [calculate_potential_roi_v1, max_def]

/-! ## C5: ROI V2 -/

/-- **C5**: `calculate_potential_roi_v2` returns 0 whenever the market status
is "closed"; otherwise it scales the probability by the time factor, clamps
it to [0,1], and applies the same true/false branch formula as V1 (with the
clamp at 0 that V1 performs). -/
theorem roi_v2_spec :
    (∀ (iv : Bool) (p f tf : ℚ), calculate_potential_roi_v2 iv p f tf "closed" = 0) ∧
    (∀ (iv : Bool) (p f tf : ℚ) (status : String), status ≠ "closed" →
      calculate_potential_roi_v2 iv p f tf status
        = calculate_potential_roi_v1 iv (max 0 (min 1 (p * tf))) f) := by
  constructor
  · intro iv p f tf
    simp [calculate_potential_roi_v2]
  · intro iv p f tf status h
    simp [calculate_potential_roi_v2, calculate_potential_roi_v1, h]

/-- Witness for `roi_v2_spec` at a concrete open-market input. -/
theorem roi_v2_spec_witness :
    calculate_potential_roi_v2 true (7/10) (2/100) (11/10) "open"
      = calculate_potential_roi_v1 true (max 0 (min 1 ((7/10) * (11/10)))) (2/100) :=
  roi_v2_spec.2 true (7/10) (2/100) (11/10) "open" (by decide)

/-! ## C2: the `www.` hosts never score -/

/-- **C2**: for every market keyword list and every probe, the three monitored
source URLs whose host begins with "www." score exactly 0 (the host keeps its
"www." prefix but the profile table is keyed without it), so among the
monitored sources only the FRED URL can produce a nonzero relevance score or
an opportunity. -/
theorem www_hosts_zero_relevance :
    (∀ (kws : List String) (si : SourceInfo),
      calculate_relevance "https://www.federalreserve.gov/monetarypolicy/openmarket.htm" kws si = 0 ∧
      calculate_relevance "https://www.bea.gov/data/gdp/gross-domestic-product" kws si = 0 ∧
      calculate_relevance "https://www.nber.org/" kws si = 0) ∧
    (∀ url ∈ get_economy_resolution_sources, ∀ (kws : List String) (si : SourceInfo),
      url ≠ "https://fred.stlouisfed.org/series/FGEXPND" →
      calculate_relevance url kws si = 0) ∧
    (∀ (markets : List Market) (sd : List (String × SourceInfo)) (now : String),
      (∀ p ∈ sd, p.1 ∈ get_economy_resolution_sources) →
      ∀ opp ∈ detect_arbitrage_opportunities markets sd now,
        opp.source_url = "https://fred.stlouisfed.org/series/FGEXPND") := by
  have h1 : relevanceProfile "https://www.federalreserve.gov/monetarypolicy/openmarket.htm" = [] := by
    decide
  have h2 : relevanceProfile "https://www.bea.gov/data/gdp/gross-domestic-product" = [] := by
    decide
  have h3 : relevanceProfile "https://www.nber.org/" = [] := by decide
  have hzero : ∀ url ∈ get_economy_resolution_sources, ∀ (kws : List String) (si : SourceInfo),
      url ≠ "https://fred.stlouisfed.org/series/FGEXPND" →
      calculate_relevance url kws si = 0 := by
    intro url hu kws si hne
    simp only [get_economy_resolution_sources, List.mem_cons, List.not_mem_nil, or_false] at hu
    rcases hu with rfl | rfl | rfl | rfl
    · exact absurd rfl hne
    · exact relevance_zero_of_profile_nil _ _ _ h1
    · exact relevance_zero_of_profile_nil _ _ _ h2
    · exact relevance_zero_of_profile_nil _ _ _ h3
  refine ⟨fun kws si => ⟨relevance_zero_of_profile_nil _ _ _ h1,
    relevance_zero_of_profile_nil _ _ _ h2, relevance_zero_of_profile_nil _ _ _ h3⟩,
    hzero, ?_⟩
  intro markets sd now hsd opp h
  obtain ⟨m, hm, p, hp, hdom, hst, hrel, rfl⟩ := mem_detect markets sd now opp h
  dsimp only
  by_contra hne
  rw [hzero p.1 (hsd p hp) _ _ hne] at hrel
  norm_num at hrel

/-- Witness for `www_hosts_zero_relevance` at the NBER URL. -/
theorem www_hosts_zero_relevance_witness :
    calculate_relevance "https://www.nber.org/" ["recession"] ⟨"success", 2000⟩ = 0 :=
  www_hosts_zero_relevance.2.1 "https://www.nber.org/" (by decide)
    ["recession"] ⟨"success", 2000⟩ (by decide)

/-! ## C8: domain classification -/

/-- **C8**: the domain classifier always returns one of the six fixed domains,
in priority order with first match winning; any text containing "trump" is
classified "politics" (the politics set is checked first), and a text matching
no keyword at all falls through to "other". -/
theorem categorize_domain_spec :
    (∀ q d, categorize_market_domain q d
      ∈ (["politics", "crypto", "economy", "health", "sports", "other"] : List String)) ∧
    (∀ q d, strIn "trump" (lowerStr (q ++ " " ++ d)) = true →
      categorize_market_domain q d = "politics") ∧
    (∀ q d, (∀ kw ∈ allDomainKeywords, strIn kw (lowerStr (q ++ " " ++ d)) = false) →
      categorize_market_domain q d = "other") := by
  refine ⟨?_, ?_, ?_⟩
  · intro q d
    unfold categorize_market_domain
    dsimp only
    split_ifs <;> decide
  · intro q d h
    unfold categorize_market_domain
    dsimp only
    rw [if_pos]
    exact List.any_eq_true.mpr ⟨"trump", by simp [politicsKw], h⟩
  · intro q d h
    have hall : ∀ kws : List String, kws ⊆ allDomainKeywords →
        (kws.any (fun k => strIn k (lowerStr (q ++ " " ++ d)))) = false := by
      intro kws hsub
      apply List.any_eq_false.mpr
      intro k hk
      simp [h k (hsub hk)]
    have sub1 : politicsKw ⊆ allDomainKeywords := by
      intro x hx; simp [allDomainKeywords, hx]
    have sub2 : cryptoKw ⊆ allDomainKeywords := by
      intro x hx; simp [allDomainKeywords, hx]
    have sub3 : economyKw ⊆ allDomainKeywords := by
      intro x hx; simp [allDomainKeywords, hx]
    have sub4 : healthKw ⊆ allDomainKeywords := by
      intro x hx; simp [allDomainKeywords, hx]
    have sub5 : sportsKw ⊆ allDomainKeywords := by
      intro x hx; simp [allDomainKeywords, hx]
    unfold categorize_market_domain
    dsimp only
    simp only [hall politicsKw sub1, hall cryptoKw sub2, hall economyKw sub3,
      hall healthKw sub4, hall sportsKw sub5, Bool.false_eq_true, if_false]

/-- Witness for `categorize_domain_spec`: a text containing "trump" (despite
also containing the crypto keyword "bitcoin") is politics, and a text with no
keyword is other. -/
theorem categorize_domain_spec_witness :
    categorize_market_domain "Trump vs bitcoin" "" = "politics" ∧
    categorize_market_domain "zzz" "qqq" = "other" :=
  ⟨categorize_domain_spec.2.1 "Trump vs bitcoin" "" (by decide),
   categorize_domain_spec.2.2 "zzz" "qqq" (by decide)⟩

/-! ## C1: resolution-source extraction -/

/-- The regex `^(.*?\.)` matches exactly when a period occurs with no newline
before it, and the (non-greedy) match is the prefix up to the first period. -/
theorem matchDotRun_eq (s : List Char) :
    matchDotRun s =
      if '.' ∈ s ∧ '\n' ∉ s.takeWhile (fun c => c != '.')
      then some (s.takeWhile (fun c => c != '.') ++ ['.']) else none := by
  induction s with
  | nil => simp [matchDotRun]
  | cons c t ih =>
    by_cases hdot : c = '.'
    · subst hdot
      simp [matchDotRun, List.takeWhile_cons]
    · by_cases hnl : c = '\n'
      · subst hnl
        simp [matchDotRun, List.takeWhile_cons, hdot]
      · rw [matchDotRun, if_neg (by simp [hdot]), if_neg (by simp [hnl]), ih]
        have htw : (c :: t).takeWhile (fun c => c != '.')
            = c :: t.takeWhile (fun c => c != '.') := by
          rw [List.takeWhile_cons, if_pos (by simp [hdot])]
        by_cases hP : '.' ∈ t ∧ '\n' ∉ t.takeWhile (fun c => c != '.')
        · have hQ : '.' ∈ c :: t ∧ '\n' ∉ (c :: t).takeWhile (fun c => c != '.') := by
            refine ⟨List.mem_cons_of_mem _ hP.1, ?_⟩
            rw [htw]
            simp only [List.mem_cons, not_or]
            exact ⟨Ne.symm hnl, hP.2⟩
          rw [if_pos hP, if_pos hQ, htw]
          simp
        · have hQ : ¬('.' ∈ c :: t ∧ '\n' ∉ (c :: t).takeWhile (fun c => c != '.')) := by
            intro hq
            apply hP
            refine ⟨?_, ?_⟩
            · rcases List.mem_cons.mp hq.1 with h | h
              · exact absurd h.symm hdot
              · exact h
            · intro hmem
              exact hq.2 (by rw [htw]; exact List.mem_cons_of_mem _ hmem)
          rw [if_neg hP, if_neg hQ]
          simp

/-- `extract_resolution_source` agrees everywhere with its spec-side
restatement `extractResolutionSourceSpec`. -/
theorem extract_resolution_source_eq_spec (d : String) :
    extract_resolution_source d = extractResolutionSourceSpec d := by
  unfold extract_resolution_source extractResolutionSourceSpec
  cases h : findSubL "resolution source".toList (lowerL d.toList) with
  | none => rfl
  | some idx =>
    dsimp only
    rw [matchDotRun_eq]
    by_cases hP : '.' ∈ d.toList.drop idx ∧
        '\n' ∉ (d.toList.drop idx).takeWhile (fun c => c != '.')
    · rw [if_pos hP, if_pos hP]
    · rw [if_neg hP, if_neg hP]

/-- **C1 (counterexample)**: the claimed value of
`extract_resolution_source "Resolution Source: BEA.gov data."` is wrong: the
non-greedy regex stops at the first period, which is the one inside
"BEA.gov", so the result is "Resolution Source: BEA.", not the whole
sentence. -/
theorem extract_resolution_source_claim_counterexample :
    extract_resolution_source "Resolution Source: BEA.gov data."
      ≠ some "Resolution Source: BEA.gov data." := by decide

/-- **C1 (amended)**: `extract_resolution_source "Resolution Source: BEA.gov
data."` returns "Resolution Source: BEA." (the suffix cut at the *first*
period after the match, here the one inside "BEA.gov"); in general, when the
description contains "resolution source" (case-insensitively), the result is
the suffix starting at that substring and ending at the first period
thereafter (inclusive) provided such a period exists with no newline before
it, and otherwise the whole remaining suffix, trimmed of whitespace — as
stated by `extractResolutionSourceSpec`. -/
theorem extract_resolution_source_amended :
    extract_resolution_source "Resolution Source: BEA.gov data."
      = some "Resolution Source: BEA." ∧
    ∀ d : String, extract_resolution_source d = extractResolutionSourceSpec d :=
  ⟨by decide, extract_resolution_source_eq_spec⟩

/-! ## C9: backtest on an empty batch -/

/-- **C9**: `backtest_strategy` applied to an empty signal batch returns the
summary whose six fields (total signals, success rate, total and average ROI
for V1 and V2) are all zero, and no input batch ever reaches a division by
zero (the `safeDiv` model never returns `none`). -/
theorem backtest_spec :
    backtest_strategy []
      = some [("total_signals", 0), ("success_rate", 0), ("total_roi_v1", 0),
              ("total_roi_v2", 0), ("avg_roi_v1", 0), ("avg_roi_v2", 0)] ∧
    ∀ signals : List Signal, (backtest_strategy signals).isSome = true := by
  constructor
  · rfl
  · intro signals
    unfold backtest_strategy
    cases signals with
    | nil => simp
    | cons s t =>
      have hpos : (0:ℚ) < (t.length : ℚ) + 1 := by positivity
      simp [safeDiv, ne_of_gt hpos]

/-! ## C3: the opportunity invariant -/

/-- **C3**: every opportunity the detector emits has relevance score strictly
above 3/10; its confidence is "high" iff the score is strictly above 7/10 and
"medium" iff it is not; and it arises from some listed market and some probe
in the source data whose status is "success", its score being the relevance
of that market/source pair — so no opportunity is emitted for a pair scoring
at most 3/10 or probed unsuccessfully. -/
theorem detect_opportunities_invariant :
    ∀ (markets : List Market) (sd : List (String × SourceInfo)) (now : String),
      ∀ opp ∈ detect_arbitrage_opportunities markets sd now,
        3/10 < opp.relevance_score ∧
        (opp.confidence = "high" ↔ 7/10 < opp.relevance_score) ∧
        (opp.confidence = "medium" ↔ opp.relevance_score ≤ 7/10) ∧
        ∃ m ∈ markets, ∃ si, (opp.source_url, si) ∈ sd ∧ si.status = "success" ∧
          opp.market_id = m.id ∧ opp.question = m.question ∧
          opp.relevance_score =
            calculate_relevance opp.source_url
              (extract_market_keywords m.question m.description) si := by
  intro markets sd now opp h
  obtain ⟨m, hm, p, hp, hdom, hst, hrel, rfl⟩ := mem_detect markets sd now opp h
  refine ⟨hrel, ?_, ?_, m, hm, p.2, ?_, hst, rfl, rfl, ?_⟩
  · dsimp only
    constructor
    · intro hc
      by_contra hlt
      rw [if_neg (by simpa using hlt)] at hc
      exact absurd hc (by decide)
    · intro hlt
      rw [if_pos hlt]
  · dsimp only
    constructor
    · intro hc
      by_contra hle
      rw [if_pos (by simpa using hle)] at hc
      exact absurd hc (by decide)
    · intro hle
      rw [if_neg (by simpa using hle)]
  · simpa using hp
  · rfl

/-! Evaluation of the concrete example pipeline, used by the witnesses. -/

theorem relevance_fred_ex :
    calculate_relevance "https://fred.stlouisfed.org/series/FGEXPND"
      ["federal spending", "government spending", "expenditure", "budget"]
      ⟨"success", 2000⟩ = 9/10 := by
  have h : relevanceProfile "https://fred.stlouisfed.org/series/FGEXPND"
      = ["federal spending", "government spending", "expenditure"] := by decide
  simp [calculate_relevance, h]
  norm_num

theorem detect_ex :
    detect_arbitrage_opportunities [mEx] [(fredUrl, siEx)] "t" = [oppEx] := by
  have hdom : categorize_market_domain "federal spending" "" = "economy" := by decide
  have hk : extract_market_keywords "federal spending" ""
      = ["federal spending", "government spending", "expenditure", "budget"] := by decide
  norm_num [detect_arbitrage_opportunities, mEx, siEx, fredUrl, oppEx, hdom, hk,
    relevance_fred_ex]
  decide

/-- Witness for `detect_opportunities_invariant` at the concrete example. -/
theorem detect_opportunities_invariant_witness :
    3/10 < oppEx.relevance_score ∧
    (oppEx.confidence = "high" ↔ 7/10 < oppEx.relevance_score) ∧
    (oppEx.confidence = "medium" ↔ oppEx.relevance_score ≤ 7/10) ∧
    ∃ m ∈ [mEx], ∃ si, (oppEx.source_url, si) ∈ [(fredUrl, siEx)] ∧ si.status = "success" ∧
      oppEx.market_id = m.id ∧ oppEx.question = m.question ∧
      oppEx.relevance_score =
        calculate_relevance oppEx.source_url
          (extract_market_keywords m.question m.description) si :=
  detect_opportunities_invariant [mEx] [(fredUrl, siEx)] "t" oppEx
    (by simp [detect_ex])

/-! ## C6: the action decision -/

/-- **C6**: for every generated signal, with `diff` the absolute difference
between the information value coerced to 0/1 and the estimated market
probability (`signalDiff`): the action is "buy" when `diff > 1/10` and the
information value is true, "sell" when `diff > 1/10` and it is false,
"monitor" when `1/20 < diff ≤ 1/10`, and "ignore" when `diff ≤ 1/20`. -/
theorem signal_action_spec :
    ∀ (opps : List Opportunity), ∀ s ∈ generate_trading_signals opps,
      (1/10 < signalDiff s.information_value s.polymarket_probability →
        s.information_value = true → s.action = "buy") ∧
      (1/10 < signalDiff s.information_value s.polymarket_probability →
        s.information_value = false → s.action = "sell") ∧
      (1/20 < signalDiff s.information_value s.polymarket_probability →
        signalDiff s.information_value s.polymarket_probability ≤ 1/10 →
        s.action = "monitor") ∧
      (signalDiff s.information_value s.polymarket_probability ≤ 1/20 →
        s.action = "ignore") := by
  intro opps s hs
  simp only [generate_trading_signals, List.mem_map] at hs
  obtain ⟨opp, -, rfl⟩ := hs
  dsimp only
  refine ⟨fun h1 hiv => ?_, fun h1 hiv => ?_, fun h2 h3 => ?_, fun h4 => ?_⟩
  · rw [if_pos h1, hiv]
    rfl
  · rw [if_pos h1, hiv]
    rfl
  · rw [if_neg (by simpa using h3), if_pos h2]
  · rw [if_neg (by simp; linarith), if_neg (by simp; linarith)]

theorem iv_ex : estimate_information_value
    ⟨"m1", "federal spending", "https://fred.stlouisfed.org/series/FGEXPND", "high", 9/10,
     "Source https://fred.stlouisfed.org/series/FGEXPND relevant to market", "t"⟩ = true := by
  simp [estimate_information_value]
  norm_num

theorem prob_ex : estimate_polymarket_probability
    ⟨"m1", "federal spending", "https://fred.stlouisfed.org/series/FGEXPND", "high", 9/10,
     "Source https://fred.stlouisfed.org/series/FGEXPND relevant to market", "t"⟩ = 114/125 := by
  have h1 : strIn "fred" "https://fred.stlouisfed.org/series/FGEXPND" = true := by decide
  have h2 : strIn "bea" "https://fred.stlouisfed.org/series/FGEXPND" = false := by decide
  have h3 : strIn "federalreserve" "https://fred.stlouisfed.org/series/FGEXPND" = false := by
    decide
  have h4 : strIn "nber" "https://fred.stlouisfed.org/series/FGEXPND" = false := by decide
  have h5 : (("m1" : String).toList.map Char.toNat).sum = 158 := by decide
  simp [estimate_polymarket_probability, h1, h2, h3, h4, h5]
  norm_num

theorem gen_ex : generate_trading_signals [oppEx] = [sigEx] := by
  norm_num [generate_trading_signals, oppEx, sigEx, iv_ex, prob_ex, signalDiff,
    calculate_potential_roi, calculate_potential_roi_v1, calculate_potential_roi_v2]
  rw [show |(11 : ℚ)/125| = 11/125 from abs_of_nonneg (by norm_num)]
  norm_num

theorem diff_sigEx : signalDiff sigEx.information_value sigEx.polymarket_probability
    = 11/125 := by
  simp [sigEx, signalDiff]
  rw [show (1 : ℚ) - 114/125 = 11/125 by norm_num]
  exact abs_of_nonneg (by norm_num)

/-- Witness for `signal_action_spec`: the example signal's difference is
11/125, strictly between 1/20 and 1/10, so its action is "monitor". -/
theorem signal_action_spec_witness : sigEx.action = "monitor" :=
  (signal_action_spec [oppEx] sigEx (by simp [gen_ex])).2.2.1
    (by rw [diff_sigEx]; norm_num) (by rw [diff_sigEx]; norm_num)

/-! ## C7: the relevance score -/

/-- **C7**: `calculate_relevance` returns 0 when either the market keyword
set or the looked-up source profile is empty, and otherwise the Jaccard
similarity of the two sets, multiplied by 6/5 exactly when the probe status
is "success" with content length above 1000, and capped at 1; the result
always lies in [0, 1].  For market keywords {gdp, economic growth} against
the bea.gov profile {gdp, gross domestic product, economic growth} the
unboosted score is 2/3. -/
theorem calculate_relevance_spec :
    (∀ (url : String) (si : SourceInfo), calculate_relevance url [] si = 0) ∧
    (∀ (url : String) (kws : List String) (si : SourceInfo),
      relevanceProfile url = [] → calculate_relevance url kws si = 0) ∧
    (∀ (url : String) (kws : List String) (si : SourceInfo),
      0 ≤ calculate_relevance url kws si ∧ calculate_relevance url kws si ≤ 1) ∧
    (∀ (url : String) (kws : List String) (si : SourceInfo),
      kws ≠ [] → relevanceProfile url ≠ [] →
      calculate_relevance url kws si =
        min (jaccardQ kws (relevanceProfile url) *
          (if si.status = "success" ∧ 1000 < si.content_length then 6/5 else 1)) 1) ∧
    calculate_relevance "https://bea.gov/" ["gdp", "economic growth"] ⟨"error", 0⟩ = 2/3 := by
  refine ⟨?_, ?_, ?_, ?_, ?_⟩
  · intro url si
    simp [calculate_relevance]
  · intro url kws si h
    exact relevance_zero_of_profile_nil url kws si h
  · intro url kws si
    unfold calculate_relevance
    dsimp only
    split_ifs with h1 h2 h3 h4
    · norm_num
    · norm_num
    · norm_num
    · refine ⟨le_min (by positivity) (by norm_num), min_le_right _ _⟩
    · refine ⟨le_min (by positivity) (by norm_num), min_le_right _ _⟩
  · intro url kws si hk hp
    have h1 : kws.isEmpty = false := by simp [List.isEmpty_iff, hk]
    have h2 : kws.dedup ≠ [] := by simp [List.dedup_eq_nil, hk]
    have h3 : (relevanceProfile url).dedup ≠ [] := by simp [List.dedup_eq_nil, hp]
    have h4 : 0 < kws.dedup.length := List.length_pos.mpr h2
    unfold calculate_relevance jaccardQ
    dsimp only
    rw [if_neg (by simp [h1]), if_neg (by simp [List.isEmpty_iff, h2, h3]),
      if_neg (by omega)]
    split_ifs with hb
    · rfl
    · rw [mul_one]
  · have h : relevanceProfile "https://bea.gov/"
        = ["gdp", "gross domestic product", "economic growth"] := by decide
    simp [calculate_relevance, h]
    norm_num

/-- Witness for `calculate_relevance_spec` on the bea.gov example (both sets
non-empty). -/
theorem calculate_relevance_spec_witness :
    calculate_relevance "https://bea.gov/" ["gdp", "economic growth"] ⟨"error", 0⟩
      = min (jaccardQ ["gdp", "economic growth"] (relevanceProfile "https://bea.gov/") *
          (if (SourceInfo.mk "error" 0).status = "success" ∧
              1000 < (SourceInfo.mk "error" 0).content_length then 6/5 else 1)) 1 :=
  calculate_relevance_spec.2.2.2.1 "https://bea.gov/" ["gdp", "economic growth"]
    ⟨"error", 0⟩ (by decide) (by decide)

/-! ## C10: URL extraction -/

/-- A successful prefix test decomposes the list. -/
theorem eq_append_drop_of_isPrefixL (a : List Char) :
    ∀ b : List Char, isPrefixL a b = true → b = a ++ b.drop a.length := by
  induction a with
  | nil => intro b _; simp
  | cons x xs ih =>
    intro b h
    cases b with
    | nil => simp [isPrefixL] at h
    | cons y ys =>
      rw [isPrefixL, Bool.and_eq_true, beq_iff_eq] at h
      obtain ⟨rfl, h2⟩ := h
      simpa using ih ys h2

/-- The first element surviving `dropWhile`, if any, fails the predicate. -/
theorem dropWhile_head_not (p : Char → Bool) (l : List Char) :
    l.dropWhile p = [] ∨ ∃ c t2, l.dropWhile p = c :: t2 ∧ p c = false := by
  induction l with
  | nil => left; rfl
  | cons c t ih =>
    rw [List.dropWhile_cons]
    split_ifs with h
    · exact ih
    · right
      exact ⟨c, t, rfl, by simpa using h⟩

/-- A list is a prefix of itself followed by anything. -/
theorem isPrefixL_append_self (a b : List Char) : isPrefixL a (a ++ b) = true := by
  induction a with
  | nil => rfl
  | cons x xs ih => simp [isPrefixL, ih]

/-- `takeWhile` over an append whose first part wholly satisfies the
predicate. -/
theorem takeWhile_append_all (p : Char → Bool) :
    ∀ (a b : List Char), (∀ c ∈ a, p c = true) →
      (a ++ b).takeWhile p = a ++ b.takeWhile p := by
  intro a
  induction a with
  | nil => intro b _; rfl
  | cons x xs ih =>
    intro b h
    rw [List.cons_append, List.takeWhile_cons, if_pos (h x (by simp)),
      ih b (fun c hc => h c (by simp [hc])), List.cons_append]

/-- The two scheme prefixes are incompatible (they differ at index 4). -/
theorem https_http_absurd (s : List Char) (h1 : isPrefixL httpsL s = true)
    (h2 : isPrefixL httpL s = true) : False := by
  obtain ⟨x, rfl⟩ : ∃ x, s = httpsL ++ x :=
    ⟨s.drop httpsL.length, eq_append_drop_of_isPrefixL httpsL s h1⟩
  simp [httpsL, httpL, isPrefixL] at h2

/-- Structure of a greedy match: it heads the remaining text, it is a full
match of the URL pattern, and the text right after it (if any) starts with a
character outside the class. -/
theorem greedyAt0_spec (s u : List Char) (h : greedyAt0 s = some u) :
    ∃ s2, s = u ++ s2 ∧ isUrlMatch u ∧
      (s2 = [] ∨ ∃ c t2, s2 = c :: t2 ∧ urlChar c = false) := by
  unfold greedyAt0 at h
  by_cases hp1 : isPrefixL httpsL s = true
  · rw [if_pos hp1] at h
    dsimp only at h
    by_cases he1 : ((s.drop 8).takeWhile urlChar).isEmpty = true
    · rw [if_pos he1] at h
      exact absurd h (by simp)
    · rw [if_neg he1] at h
      have hu : httpsL ++ (s.drop 8).takeWhile urlChar = u := by simpa using h
      have e : s = httpsL ++ s.drop httpsL.length := eq_append_drop_of_isPrefixL httpsL s hp1
      refine ⟨(s.drop 8).dropWhile urlChar, ?_, ?_, dropWhile_head_not urlChar (s.drop 8)⟩
      · rw [← hu, List.append_assoc, List.takeWhile_append_dropWhile]
        exact e
      · exact ⟨(s.drop 8).takeWhile urlChar, Or.inl hu.symm,
          by simpa [List.isEmpty_iff] using he1, fun c hc => List.mem_takeWhile_imp hc⟩
  · rw [if_neg hp1] at h
    by_cases hp2 : isPrefixL httpL s = true
    · rw [if_pos hp2] at h
      dsimp only at h
      by_cases he2 : ((s.drop 7).takeWhile urlChar).isEmpty = true
      · rw [if_pos he2] at h
        exact absurd h (by simp)
      · rw [if_neg he2] at h
        have hu : httpL ++ (s.drop 7).takeWhile urlChar = u := by simpa using h
        have e : s = httpL ++ s.drop httpL.length := eq_append_drop_of_isPrefixL httpL s hp2
        refine ⟨(s.drop 7).dropWhile urlChar, ?_, ?_, dropWhile_head_not urlChar (s.drop 7)⟩
        · rw [← hu, List.append_assoc, List.takeWhile_append_dropWhile]
          exact e
        · exact ⟨(s.drop 7).takeWhile urlChar, Or.inr hu.symm,
            by simpa [List.isEmpty_iff] using he2, fun c hc => List.mem_takeWhile_imp hc⟩
    · rw [if_neg hp2] at h
      exact absurd h (by simp)

/-- Every character of a URL match is a class character. -/
theorem urlMatch_all_class (u : List Char) (h : isUrlMatch u) :
    ∀ c ∈ u, urlChar c = true := by
  obtain ⟨rest, hu, -, hc⟩ := h
  have hs : ∀ c ∈ httpsL, urlChar c = true := by decide
  have hh : ∀ c ∈ httpL, urlChar c = true := by decide
  rcases hu with rfl | rfl <;> intro c hmem <;> rcases List.mem_append.mp hmem with h | h
  · exact hs c h
  · exact hc c h
  · exact hh c h
  · exact hc c h

/-- A URL match is non-empty. -/
theorem urlMatch_length_pos (u : List Char) (h : isUrlMatch u) : 0 < u.length := by
  obtain ⟨rest, hu, -, -⟩ := h
  rcases hu with rfl | rfl <;> simp [httpsL, httpL]

/-- Congruence for `List.any` under pointwise equality on members. -/
theorem any_congr_mem {l : List Nat} {p q : Nat → Bool}
    (h : ∀ j ∈ l, p j = q j) : l.any p = l.any q := by
  induction l with
  | nil => rfl
  | cons a l ih =>
    rw [List.any_cons, List.any_cons, h a (by simp), ih (fun j hj => h j (by simp [hj]))]

/-- The greedy match at a position is at least as long as any match of the
pattern occurring there. -/
theorem greedyAt0_longest (s v s2 : List Char) (hv : isUrlMatch v)
    (he : s = v ++ s2) : ∃ w, greedyAt0 s = some w ∧ v.length ≤ w.length := by
  obtain ⟨rest, hu, hne, hcl⟩ := hv
  rcases hu with rfl | rfl
  · have hs : s = httpsL ++ (rest ++ s2) := by rw [he, List.append_assoc]
    have hp : isPrefixL httpsL s = true := by
      rw [hs]
      exact isPrefixL_append_self httpsL (rest ++ s2)
    have hdrop : s.drop 8 = rest ++ s2 := by
      rw [hs]
      exact List.drop_left' rfl
    have hrun : (s.drop 8).takeWhile urlChar = rest ++ s2.takeWhile urlChar := by
      rw [hdrop]
      exact takeWhile_append_all urlChar rest s2 hcl
    refine ⟨httpsL ++ (s.drop 8).takeWhile urlChar, ?_, ?_⟩
    · unfold greedyAt0
      rw [if_pos hp]
      dsimp only
      rw [if_neg (by simp [hrun, List.isEmpty_iff, hne])]
    · simp [hrun, httpsL]
  · have hs : s = httpL ++ (rest ++ s2) := by rw [he, List.append_assoc]
    have hp : isPrefixL httpL s = true := by
      rw [hs]
      exact isPrefixL_append_self httpL (rest ++ s2)
    have hps : ¬isPrefixL httpsL s = true := by
      intro hx
      exact https_http_absurd s hx hp
    have hdrop : s.drop 7 = rest ++ s2 := by
      rw [hs]
      exact List.drop_left' rfl
    have hrun : (s.drop 7).takeWhile urlChar = rest ++ s2.takeWhile urlChar := by
      rw [hdrop]
      exact takeWhile_append_all urlChar rest s2 hcl
    refine ⟨httpL ++ (s.drop 7).takeWhile urlChar, ?_, ?_⟩
    · unfold greedyAt0
      rw [if_neg hps, if_pos hp]
      dsimp only
      rw [if_neg (by simp [hrun, List.isEmpty_iff, hne])]
    · simp [hrun, httpL]

/-- If a greedy match starting at `j` covers a later position `i` where a
match of the pattern occurs, the greedy match's span contains that whole
occurrence (the occurrence consists of class characters, and the greedy
match's span ends right before a non-class character or the end of input). -/
theorem greedy_covers_extends (t : List Char) (j i : Nat) (w u : List Char)
    (hg : greedyAt0 (t.drop j) = some w) (hji : j < i) (hcov : i < j + w.length)
    (hocc : occursAt t i u) (hum : isUrlMatch u) :
    i + u.length ≤ j + w.length := by
  obtain ⟨s2, hocc⟩ := hocc
  obtain ⟨s3, he3, -, htail⟩ := greedyAt0_spec _ _ hg
  by_contra hlt
  push_neg at hlt
  have hq1 : t.drop (j + w.length) = s3 := by
    rw [← List.drop_drop, he3, List.drop_left]
  have hq2 : t.drop (j + w.length) = u.drop (j + w.length - i) ++ s2 := by
    have hstep : t.drop (j + w.length) = (t.drop i).drop (j + w.length - i) := by
      rw [List.drop_drop]
      congr 1
      omega
    rw [hstep, hocc, List.drop_append_eq_append_drop]
    congr 1
    rw [show j + w.length - i - u.length = 0 by omega]
    exact List.drop_zero s2
  have hne2 : u.drop (j + w.length - i) ≠ [] := by
    rw [ne_eq, List.drop_eq_nil_iff]
    omega
  rw [hq1] at hq2
  obtain ⟨c2, r2, hu2⟩ : ∃ c2 r2, u.drop (j + w.length - i) = c2 :: r2 := by
    cases hud : u.drop (j + w.length - i) with
    | nil => exact absurd hud hne2
    | cons a b => exact ⟨a, b, rfl⟩
  have hmem : c2 ∈ u := List.drop_subset _ u (by rw [hu2]; simp)
  have hclass : urlChar c2 = true := urlMatch_all_class u hum c2 hmem
  rcases htail with h3 | ⟨c, t2, h3, hcf⟩
  · rw [h3, hu2] at hq2
    simp at hq2
  · rw [h3, hu2] at hq2
    have : c = c2 := by
      have := congrArg List.head? hq2
      simpa using this
    rw [this, hclass] at hcf
    exact absurd hcf (by simp)

/-- The matches `specUrls` emits at position `i` are exactly the maximal
occurrences of the URL pattern at `i`. -/
theorem greedy_uncovered_iff_maximal (t : List Char) (i : Nat) (u : List Char) :
    (greedyAt0 (t.drop i) = some u ∧ coveredAt t i = false) ↔ isMaximalUrlAt t i u := by
  constructor
  · rintro ⟨hg, hc⟩
    obtain ⟨s2, he, hum, -⟩ := greedyAt0_spec _ _ hg
    refine ⟨⟨s2, he⟩, hum, ?_⟩
    intro j v hocc hvm hji hlen
    obtain ⟨s4, hocc4⟩ := hocc
    rcases Nat.lt_or_ge j i with hlt | hge
    · exfalso
      obtain ⟨w, hgw, hwlen⟩ := greedyAt0_longest (t.drop j) v s4 hvm hocc4
      have hup : 0 < u.length := urlMatch_length_pos u hum
      have hct : coveredAt t i = true := by
        apply List.any_eq_true.mpr
        refine ⟨j, List.mem_range.mpr hlt, ?_⟩
        rw [hgw]
        simp only [decide_eq_true_eq]
        omega
      rw [hct] at hc
      exact absurd hc (by simp)
    · have hj : j = i := le_antisymm hji hge
      subst hj
      obtain ⟨w, hgw, hwlen⟩ := greedyAt0_longest (t.drop j) v s4 hvm hocc4
      rw [hg] at hgw
      have hwu : u = w := by
        injection hgw
      have hvu : v.length = u.length := by
        have hlw : u.length = w.length := by rw [hwu]
        omega
      refine ⟨rfl, ?_⟩
      have h1 : (t.drop j).take v.length = v := by
        rw [hocc4]
        exact List.take_left v s4
      have h2 : (t.drop j).take u.length = u := by
        rw [he]
        exact List.take_left u s2
      rw [← h1, hvu, h2]
  · rintro ⟨⟨s2, hocc⟩, hum, hmax⟩
    obtain ⟨w, hgw, hwlen⟩ := greedyAt0_longest (t.drop i) u s2 hum hocc
    obtain ⟨s3, he3, hwm, -⟩ := greedyAt0_spec _ _ hgw
    have hw : w = u := (hmax i w ⟨s3, he3⟩ hwm (le_refl i) (by omega)).2
    subst hw
    refine ⟨hgw, ?_⟩
    by_contra hcov
    have hct : coveredAt t i = true := by
      cases hcb : coveredAt t i with
      | false => exact absurd hcb hcov
      | true => rfl
    obtain ⟨j, hjr, hpred⟩ := List.any_eq_true.mp hct
    have hji : j < i := List.mem_range.mp hjr
    cases hgj : greedyAt0 (t.drop j) with
    | none =>
      rw [hgj] at hpred
      simp at hpred
    | some wj =>
      rw [hgj] at hpred
      simp only [decide_eq_true_eq] at hpred
      have hext := greedy_covers_extends t j i wj w hgj hji hpred ⟨s2, hocc⟩ hum
      obtain ⟨s5, he5, hwjm, -⟩ := greedyAt0_spec _ _ hgj
      have := (hmax j wj ⟨s5, he5⟩ hwjm (le_of_lt hji) hext).1
      omega

/-- `specUrls` recursion, no-match case: when no match starts at the head,
the spec list of `c :: t` is the spec list of `t`. -/
theorem specUrls_cons_none (c : Char) (t : List Char)
    (h : greedyAt0 (c :: t) = none) : specUrls (c :: t) = specUrls t := by
  unfold specUrls
  rw [List.length_cons, List.range_succ_eq_map, List.filterMap_cons]
  simp only [List.drop_zero, h, List.filterMap_map]
  apply List.filterMap_congr
  intro k hk
  simp only [Function.comp_apply, Nat.succ_eq_add_one, List.drop_succ_cons]
  have hcov : coveredAt (c :: t) (k + 1) = coveredAt t k := by
    unfold coveredAt
    rw [List.range_succ_eq_map, List.any_cons]
    simp only [List.drop_zero, h]
    rw [Bool.false_or, List.any_map]
    apply any_congr_mem
    intro j hj
    simp only [Function.comp_apply, Nat.succ_eq_add_one, List.drop_succ_cons]
    cases hgj : greedyAt0 (t.drop j) with
    | none => rfl
    | some v =>
      dsimp only
      exact decide_eq_decide.mpr (by omega)
  rw [hcov]

/-- `specUrls` recursion, match case: when a match starts at the head, the
spec list is that match followed by the spec list of the text after it
(positions inside the match are covered; no greedy match starting inside it
can extend past its end). -/
theorem specUrls_cons_some (l u : List Char) (h : greedyAt0 l = some u) :
    specUrls l = u :: specUrls (l.drop u.length) := by
  obtain ⟨s2, he, hum, -⟩ := greedyAt0_spec _ _ h
  have hup : 0 < u.length := urlMatch_length_pos u hum
  have hd : u.length ≤ l.length := by
    rw [he]
    simp
  have hbound : ∀ j wj, 0 < j → j < u.length → greedyAt0 (l.drop j) = some wj →
      j + wj.length ≤ u.length := by
    intro j wj hj0 hju hgj
    obtain ⟨s5, he5, hwjm, -⟩ := greedyAt0_spec _ _ hgj
    have h0 : greedyAt0 (l.drop 0) = some u := by
      rw [List.drop_zero]
      exact h
    have := greedy_covers_extends l 0 j u wj h0 hj0 (by omega) ⟨s5, he5⟩ hwjm
    omega
  have hc0 : coveredAt l 0 = false := by simp [coveredAt]
  have h1 : (List.range u.length).filterMap
      (fun i => match greedyAt0 (l.drop i) with
        | none => none
        | some w => if coveredAt l i then none else some w) = [u] := by
    conv_lhs => rw [show u.length = (u.length - 1) + 1 from by omega, List.range_succ_eq_map]
    rw [List.filterMap_cons]
    simp only [List.drop_zero, h, hc0, Bool.false_eq_true, if_false, List.filterMap_map]
    congr 1
    rw [List.filterMap_eq_nil_iff]
    intro k hk
    have hk1 : k + 1 < u.length := by
      have := List.mem_range.mp hk
      omega
    simp only [Function.comp_apply, Nat.succ_eq_add_one]
    cases hgk : greedyAt0 (l.drop (k + 1)) with
    | none => rfl
    | some wk =>
      dsimp only
      have hcv : coveredAt l (k + 1) = true := by
        apply List.any_eq_true.mpr
        refine ⟨0, List.mem_range.mpr (by omega), ?_⟩
        simp only [List.drop_zero, h]
        simp only [decide_eq_true_eq]
        omega
      rw [hcv]
      simp
  unfold specUrls
  conv_lhs => rw [show l.length = u.length + (l.length - u.length) from by omega, List.range_add]
  rw [List.filterMap_append, h1, List.singleton_append, List.filterMap_map]
  congr 1
  rw [List.length_drop]
  apply List.filterMap_congr
  intro k hk
  simp only [Function.comp_apply]
  rw [List.drop_drop]
  have hcov : coveredAt l (u.length + k) = coveredAt (l.drop u.length) k := by
    unfold coveredAt
    rw [List.range_add, List.any_append, List.any_map]
    have hfirst : (List.range u.length).any
        (fun j => match greedyAt0 (l.drop j) with
          | none => false
          | some v => decide (u.length + k < j + v.length)) = false := by
      apply List.any_eq_false.mpr
      intro j hj
      have hjr : j < u.length := List.mem_range.mp hj
      cases hgj : greedyAt0 (l.drop j) with
      | none => simp
      | some wj =>
        dsimp only
        rcases Nat.eq_zero_or_pos j with rfl | hj0
        · rw [List.drop_zero, h] at hgj
          have hlen : u.length = wj.length := by
            have : u = wj := by injection hgj
            rw [this]
          simp only [decide_eq_true_eq]
          omega
        · have hb := hbound j wj hj0 hjr hgj
          simp only [decide_eq_true_eq]
          omega
    rw [hfirst, Bool.false_or]
    apply any_congr_mem
    intro j hj
    simp only [Function.comp_apply]
    rw [List.drop_drop]
    cases hgj : greedyAt0 (l.drop (u.length + j)) with
    | none => rfl
    | some v =>
      dsimp only
      exact decide_eq_decide.mpr (by omega)
  rw [hcov]

/-- Dropping as many elements as `takeWhile` keeps is `dropWhile`. -/
theorem drop_takeWhile_length (p : Char → Bool) (l : List Char) :
    l.drop (l.takeWhile p).length = l.dropWhile p := by
  induction l with
  | nil => rfl
  | cons c t ih =>
    rw [List.takeWhile_cons, List.dropWhile_cons]
    split_ifs with h
    · simpa using ih
    · simp

/-- The scan of `re.findall` computes exactly the position-ordered list of
uncovered greedy matches. -/
theorem findall_eq_spec : ∀ (fuel : Nat) (l : List Char), l.length ≤ fuel →
    findall_urlsAux fuel l = specUrls l := by
  intro fuel
  induction fuel with
  | zero =>
    intro l hl
    have hnil : l = [] := List.length_eq_zero.mp (Nat.le_zero.mp hl)
    subst hnil
    rfl
  | succ n ih =>
    intro l hl
    cases l with
    | nil => rfl
    | cons c t =>
      have hl2 : t.length ≤ n := by simpa using hl
      rw [findall_urlsAux]
      dsimp only
      by_cases hp1 : isPrefixL httpsL (c :: t) = true
      · rw [if_pos hp1]
        by_cases he1 : ((t.drop 7).takeWhile urlChar).isEmpty = true
        · rw [if_pos he1, ih t hl2]
          refine (specUrls_cons_none c t ?_).symm
          unfold greedyAt0
          rw [if_pos hp1]
          dsimp only
          rw [if_pos (show ((((c :: t).drop 8).takeWhile urlChar).isEmpty = true) from he1)]
        · rw [if_neg he1]
          have hg : greedyAt0 (c :: t) = some (httpsL ++ (t.drop 7).takeWhile urlChar) := by
            unfold greedyAt0
            rw [if_pos hp1]
            dsimp only
            rw [if_neg (show ¬ ((((c :: t).drop 8).takeWhile urlChar).isEmpty = true) from he1)]
            rfl
          rw [specUrls_cons_some (c :: t) _ hg]
          have harg : (c :: t).drop (httpsL ++ (t.drop 7).takeWhile urlChar).length
              = (t.drop 7).dropWhile urlChar := by
            rw [List.length_append]
            rw [show httpsL.length = 8 from rfl]
            rw [show 8 + ((t.drop 7).takeWhile urlChar).length
                = (7 + ((t.drop 7).takeWhile urlChar).length) + 1 from by omega]
            rw [List.drop_succ_cons]
            rw [← List.drop_drop]
            exact drop_takeWhile_length urlChar (t.drop 7)
          rw [harg]
          have hb : ((t.drop 7).dropWhile urlChar).length ≤ n := by
            have b1 := List.Sublist.length_le (List.dropWhile_sublist (l := t.drop 7) urlChar)
            simp only [List.length_drop] at b1
            omega
          rw [ih _ hb]
      · rw [if_neg hp1]
        by_cases hp2 : isPrefixL httpL (c :: t) = true
        · rw [if_pos hp2]
          by_cases he2 : ((t.drop 6).takeWhile urlChar).isEmpty = true
          · rw [if_pos he2, ih t hl2]
            refine (specUrls_cons_none c t ?_).symm
            unfold greedyAt0
            rw [if_neg hp1, if_pos hp2]
            dsimp only
            rw [if_pos (show ((((c :: t).drop 7).takeWhile urlChar).isEmpty = true) from he2)]
          · rw [if_neg he2]
            have hg : greedyAt0 (c :: t) = some (httpL ++ (t.drop 6).takeWhile urlChar) := by
              unfold greedyAt0
              rw [if_neg hp1, if_pos hp2]
              dsimp only
              rw [if_neg (show ¬ ((((c :: t).drop 7).takeWhile urlChar).isEmpty = true) from he2)]
              rfl
            rw [specUrls_cons_some (c :: t) _ hg]
            have harg : (c :: t).drop (httpL ++ (t.drop 6).takeWhile urlChar).length
                = (t.drop 6).dropWhile urlChar := by
              rw [List.length_append]
              rw [show httpL.length = 7 from rfl]
              rw [show 7 + ((t.drop 6).takeWhile urlChar).length
                  = (6 + ((t.drop 6).takeWhile urlChar).length) + 1 from by omega]
              rw [List.drop_succ_cons]
              rw [← List.drop_drop]
              exact drop_takeWhile_length urlChar (t.drop 6)
            rw [harg]
            have hb : ((t.drop 6).dropWhile urlChar).length ≤ n := by
              have b1 := List.Sublist.length_le (List.dropWhile_sublist (l := t.drop 6) urlChar)
              simp only [List.length_drop] at b1
              omega
            rw [ih _ hb]
        · rw [if_neg hp2, ih t hl2]
          refine (specUrls_cons_none c t ?_).symm
          unfold greedyAt0
          rw [if_neg hp1, if_neg hp2]

/-- **C10**: `extract_urls "see https://a.com/x, and https://b.org)"` returns
exactly `["https://a.com/x", "https://b.org"]`; in general `extract_urls`
returns, for the positions of its input in increasing order, exactly the
maximal matches of the pattern "http(s)://" followed by one or more
characters outside {whitespace, comma, close paren} — every maximal match,
in order of appearance, duplicates preserved: `extract_urls` equals the
position-indexed enumeration `specUrls`, and the match `specUrls` emits at a
position is characterised as exactly the maximal occurrence there
(`isMaximalUrlAt`). -/
theorem extract_urls_spec :
    extract_urls "see https://a.com/x, and https://b.org)"
      = ["https://a.com/x", "https://b.org"] ∧
    (∀ text : String, extract_urls text = (specUrls text.toList).map String.mk) ∧
    (∀ (t : List Char) (i : Nat) (u : List Char),
      (greedyAt0 (t.drop i) = some u ∧ coveredAt t i = false) ↔ isMaximalUrlAt t i u) := by
  refine ⟨by decide, ?_, greedy_uncovered_iff_maximal⟩
  intro text
  unfold extract_urls findall_urls
  rw [findall_eq_spec _ _ (le_refl _)]

/-- Witness for `extract_urls_spec`: instantiating the characterisation at
the example text shows the first returned URL is the maximal match at
position 4. -/
theorem extract_urls_spec_witness :
    isMaximalUrlAt ("see https://a.com/x, and https://b.org)" : String).toList 4
      ("https://a.com/x" : String).toList :=
  (extract_urls_spec.2.2 ("see https://a.com/x, and https://b.org)" : String).toList 4
      ("https://a.com/x" : String).toList).mp ⟨by decide, by decide⟩

end Polymarket
